import Mathlib

/-!
# Verification of the SubwaySign arrival-estimation pipeline

A shallow embedding of the arrival-estimation pipeline of the SubwaySign
repository, together with theorems settling a list of specification claims.

The embedding follows `mta_api.py` (class `MTAApi`) and `subway_times.py`
(class `SubwayTimes`).  Conventions:

* Python `int` timestamps (epoch milliseconds) are modelled as `Int`; the
  clock instant `now` is likewise an epoch-millisecond `Int`.
* Python `int(x)` truncates a quotient toward zero, which on integers is
  `Int.tdiv`; the spec's `floor` is `Int.fdiv`.
* `item.get(k)` of a possibly-missing numeric field is an `Option Int`;
  `item.get(k, '')` of a string field is a `String` (missing = `""`).
* Python dictionaries keep keys in insertion order, so `trips_data` is an
  association list updated in place.
* The repeated calls to `datetime.now()` (one per successful
  `_get_arrival_minutes` call) are modelled by an explicit clock oracle
  `nows : Nat → Int`; sample `k` is the value of the `k`-th call within one
  `_parse_response` invocation.
-/

namespace SubwaySign

/-- Direction of a train relative to the reference stop. -/
inductive Direction where
  | uptown
  | downtown
deriving DecidableEq, Repr

/-- The direction string used by the Python code in dictionary keys
(`'uptown'` / `'downtown'`). -/
def dirString : Direction → String
  | .uptown => "uptown"
  | .downtown => "downtown"

/-- One raw record of the arrivals feed, restricted to the fields that
`MTAApi._parse_response` reads.  String fields default to `""` when absent
(as in `item.get('tripId', '')`); the two timestamp fields are optional
epoch-millisecond integers. -/
structure RawItem where
  routeShortName : String
  stopId : String
  tripHeadsign : String
  tripId : String
  predictedArrivalTime : Option Int
  scheduledArrivalTime : Option Int
deriving DecidableEq, Repr

/-- The Python value of `has_prediction = predicted_ms and predicted_ms > 0`.
Because `and` short-circuits with the *value* of its left operand, this is
`None` when `predicted_ms` is `None`, the integer `0` when it is `0`, and a
proper boolean otherwise.  Python `==` and truthiness distinguish these four
values, so the embedding keeps them apart. -/
inductive HasPred where
  | pyNone
  | pyZero
  | pyFalse
  | pyTrue
deriving DecidableEq, Repr

/-- `predicted_ms and predicted_ms > 0` as a `HasPred` value. -/
def hasPredOf : Option Int → HasPred
  | none => .pyNone
  | some p => if p = 0 then .pyZero else if 0 < p then .pyTrue else .pyFalse

/-- Python truthiness of a `has_prediction` value: only `True` is truthy. -/
def HasPred.truthy : HasPred → Bool
  | .pyTrue => true
  | _ => false

/-- Python `==` on `has_prediction` values.  Note `0 == False` is `True` in
Python, while `None` is equal only to itself. -/
def HasPred.pyEq : HasPred → HasPred → Bool
  | .pyNone, .pyNone => true
  | .pyZero, .pyZero => true
  | .pyZero, .pyFalse => true
  | .pyFalse, .pyZero => true
  | .pyFalse, .pyFalse => true
  | .pyTrue, .pyTrue => true
  | _, _ => false

/-- The value stored in `trips_data` for one trip key (the `trip_id` itself
is only part of the key, not of the stored value). -/
structure TripRecord where
  route : String
  direction : Direction
  minutes : Int
  has_prediction : HasPred
deriving DecidableEq, Repr

/-- Executable substring test on character lists (Python `pat in s` on
strings): `pat` occurs as a contiguous run inside the list. -/
def charsContain (pat : List Char) : List Char → Bool
  | [] => pat.isEmpty
  | c :: rest => pat.isPrefixOf (c :: rest) || charsContain pat rest

/-- `MTAApi._get_direction`: lowercase the headsign, then a case-insensitive
substring match — `'uptown'`/`'north'` give uptown, `'downtown'`/`'south'`
give downtown, anything else is `None`. -/
def getDirection (item : RawItem) : Option Direction :=
  let direction := item.tripHeadsign.toList.map Char.toLower
  if charsContain "uptown".toList direction || charsContain "north".toList direction then
    some Direction.uptown
  else if charsContain "downtown".toList direction || charsContain "south".toList direction then
    some Direction.downtown
  else
    none

/-- `MTAApi.STOP_FILTERS`: expected 23rd-Street stop ids per line, as an
`(uptown, downtown)` pair. -/
def stopFilters : String → Option (String × String)
  | "F" => some ("MTASBWY_D18N", "MTASBWY_D18S")
  | "M" => some ("MTASBWY_D18N", "MTASBWY_D18S")
  | "R" => some ("MTASBWY_R19N", "MTASBWY_R19S")
  | "W" => some ("MTASBWY_R19N", "MTASBWY_R19S")
  | "1" => some ("MTASBWY_130N", "MTASBWY_130S")
  | "C" => some ("MTASBWY_A30N", "MTASBWY_A30S")
  | "E" => some ("MTASBWY_A30N", "MTASBWY_A30S")
  | "6" => some ("MTASBWY_634N", "MTASBWY_634S")
  | _ => none

/-- The per-item checks of `_parse_response` that precede the call to
`_get_arrival_minutes`: the route must be requested, the direction must be
recognizable, and when the line has a stop filter the record's `stopId`
must be the expected platform.  Returns the direction on success. -/
def checksBeforeTime (requested : List String) (item : RawItem) : Option Direction :=
  if item.routeShortName ∈ requested then
    match getDirection item with
    | none => none
    | some dir =>
      match stopFilters item.routeShortName with
      | some (up, down) =>
        let expected := match dir with | .uptown => up | .downtown => down
        if item.stopId = expected then some dir else none
      | none => some dir
  else
    none

/-- `MTAApi._get_arrival_minutes`.  Chooses the predicted instant when it is
present and strictly positive, otherwise the scheduled instant; Python's
`if not arrival_ms` discards both a missing and a zero instant.  The minute
count is `int(diff.total_seconds() / 60)` — truncation toward zero, i.e.
`Int.tdiv` of the millisecond difference by `60000` — clamped below by `0`.
All `none` results are decided before the code reads `datetime.now()`, so a
`none` result consumes no clock sample. -/
def getArrivalMinutes (item : RawItem) (now : Int) : Option Int :=
  let arrival_ms : Option Int :=
    match item.predictedArrivalTime with
    | some p => if 0 < p then some p else item.scheduledArrivalTime
    | none => item.scheduledArrivalTime
  match arrival_ms with
  | none => none
  | some a =>
    if a = 0 then none
    else some (max 0 ((a - now).tdiv 60000))

/-- One `trips_data[key] = ...` update.  A fresh key is appended at the end
(Python dicts keep insertion order); an existing key keeps its position and
its value is replaced exactly when the new record has a truthy
`has_prediction` and the old one does not, or the two `has_prediction`
values are Python-`==` and the new record's minutes are strictly smaller. -/
def updateAssoc : List (String × TripRecord) → String → TripRecord → List (String × TripRecord)
  | [], key, r => [(key, r)]
  | (k, old) :: rest, key, r =>
    if k = key then
      (if (r.has_prediction.truthy && !old.has_prediction.truthy)
          || (r.has_prediction.pyEq old.has_prediction && r.minutes < old.minutes) then
        (k, r)
      else
        (k, old)) :: rest
    else
      (k, old) :: updateAssoc rest key r

/-- The deduplication loop of `_parse_response`: fold all normalized
`(key, record)` pairs into the `trips_data` association list. -/
def dedupTrips (ps : List (String × TripRecord)) : List (String × TripRecord) :=
  ps.foldl (fun m p => updateAssoc m p.1 p.2) []

/-- The normalization loop of `_parse_response`: map each raw item through
the pre-checks, the arrival-minute computation and the trip-id check,
producing `(key, record)` pairs in feed order.  `nows k` is the value of
the `k`-th `datetime.now()` call; the counter advances exactly when
`_get_arrival_minutes` returns a value (its `None` exits all happen before
the clock is read). -/
def normalizeAll (requested : List String) (nows : Nat → Int) :
    List RawItem → Nat → List (String × TripRecord)
  | [], _ => []
  | item :: rest, k =>
    match checksBeforeTime requested item with
    | none => normalizeAll requested nows rest k
    | some dir =>
      match getArrivalMinutes item (nows k) with
      | none => normalizeAll requested nows rest k
      | some mins =>
        if item.tripId = "" then
          normalizeAll requested nows rest (k + 1)
        else
          (item.routeShortName ++ "_" ++ dirString dir ++ "_" ++ item.tripId,
            { route := item.routeShortName, direction := dir, minutes := mins,
              has_prediction := hasPredOf item.predictedArrivalTime })
            :: normalizeAll requested nows rest (k + 1)

/-- The final estimate type of `mta_api.py` (`MTATrainEstimate`): per-line
lists of minute counts, one list per direction. -/
structure MTATrainEstimate where
  line : String
  uptown : List Int
  downtown : List Int
deriving DecidableEq, Repr

/-- `MTATrainEstimate.__init__`: `uptown_times if uptown_times else []` —
both a missing (`None`) and an empty list argument become `[]`. -/
def MTATrainEstimate.mkPy (line : String) (uptown_times downtown_times : Option (List Int)) :
    MTATrainEstimate :=
  { line := line
    uptown := match uptown_times with
      | none => []
      | some l => if l.isEmpty then [] else l
    downtown := match downtown_times with
      | none => []
      | some l => if l.isEmpty then [] else l }

/-- One step of the proximity-merge loop inside `filter_useful_times`:
append `time` when the kept list is empty or `time` is at least `2` away
from the last kept value, otherwise drop it. -/
def mergeStep (deduplicated : List Int) (time : Int) : List Int :=
  match deduplicated.getLast? with
  | none => deduplicated ++ [time]
  | some last => if 2 ≤ (time - last).natAbs then deduplicated ++ [time] else deduplicated

/-- `filter_useful_times` from `MTAApi._parse_response`: drop values below
`1`, fall back to the first (smallest, the list is sorted) original value
when nothing is left, merge near-duplicate values, and keep at most `3`. -/
def filter_useful_times (times_list : List Int) : List Int :=
  match times_list with
  | [] => []
  | first :: _ =>
    let useful_times := times_list.filter fun t => 1 ≤ t
    if useful_times.isEmpty then [first]
    else (useful_times.foldl mergeStep []).take 3

/-- Python `sorted` on an integer list.  Any correct sort of an integer
list yields the same list (equal keys are identical values), so the
structurally recursive `insertionSort` is used. -/
def sortInt (l : List Int) : List Int :=
  l.insertionSort (· ≤ ·)

/-- The minutes collected into `line_data[route][direction]`, in trip
iteration order. -/
def lineMinutes (trips : List TripRecord) (line : String) (dir : Direction) : List Int :=
  (trips.filter fun r => r.route = line ∧ r.direction = dir).map (·.minutes)

/-- The per-requested-line body of the estimate loop of `_parse_response`:
a line present in `line_data` gets its two sorted, filtered minute lists;
a line with no surviving record gets `MTATrainEstimate(line)`. -/
def estimateForLine (trips : List TripRecord) (line : String) : MTATrainEstimate :=
  if (trips.filter fun r => r.route = line).isEmpty then
    MTATrainEstimate.mkPy line none none
  else
    let uptown := sortInt (lineMinutes trips line .uptown)
    let downtown := sortInt (lineMinutes trips line .downtown)
    MTATrainEstimate.mkPy line (some (filter_useful_times uptown))
      (some (filter_useful_times downtown))

/-- The estimate loop of `_parse_response`: one appended estimate per
requested line, in request order. -/
def parseEstimates (trips : List TripRecord) (requested_lines : List String) :
    List MTATrainEstimate :=
  requested_lines.map (estimateForLine trips)

/-- `MTAApi._parse_response` end to end: normalize, deduplicate, group and
select.  `nows` is the per-invocation clock oracle. -/
def parseResponse (items : List RawItem) (requested_lines : List String) (nows : Nat → Int) :
    List MTATrainEstimate :=
  parseEstimates ((dedupTrips (normalizeAll requested_lines nows items 0)).map Prod.snd)
    requested_lines

/-! ## The `subway_times.py` variant -/

/-- One `stop_time_updates` entry of a GTFS trip: the stop it refers to and
an optional arrival instant (epoch milliseconds). -/
structure StopUpdate where
  stop_id : String
  arrival : Option Int
deriving DecidableEq, Repr

/-- A GTFS trip as read by `SubwayTimes._get_next_arrival`. -/
structure GtfsTrip where
  stop_time_updates : List StopUpdate
deriving DecidableEq, Repr

/-- `SubwayTimes._calculate_minutes_away`: `None` for a missing arrival,
otherwise the truncated minute difference clamped below by `0`. -/
def calculateMinutesAway (arrival_time : Option Int) (now : Int) : Option Int :=
  match arrival_time with
  | none => none
  | some a => some (max 0 ((a - now).tdiv 60000))

/-- `SubwayTimes._get_next_arrival`: collect `(arrival, minutes)` pairs for
the stop, sort ascending by minutes, return the first arrival at least `2`
minutes away, falling back to the closest one, or `None` when there is no
data at all. -/
def getNextArrival (trips : List GtfsTrip) (stop_id : String) (now : Int) : Option Int :=
  let arrivals : List (Int × Int) :=
    trips.flatMap fun trip =>
      trip.stop_time_updates.filterMap fun stop_update =>
        if stop_update.stop_id = stop_id then
          match stop_update.arrival with
          | none => none
          | some a =>
            match calculateMinutesAway (some a) now with
            | none => none
            | some m => some (a, m)
        else
          none
  let sorted := arrivals.insertionSort fun p q => p.2 ≤ q.2
  match sorted.find? (fun p => 2 ≤ p.2) with
  | some p => some p.1
  | none => sorted.head?.map Prod.fst

/-- The per-line output type of `subway_times.py` (`TrainEstimate`): a
single optional minute count per direction, defaulting to `None`. -/
structure TrainEstimate where
  line : String
  uptown : Option Int
  downtown : Option Int
deriving DecidableEq, Repr

/-- The per-line body of `SubwayTimes.get_times` after the feed fetch: next
arrival per direction, then minutes away, with `None` carried through when
a direction has no arrival. -/
def subwayLineEstimate (line : String) (uptownTrips downtownTrips : List GtfsTrip)
    (upStop downStop : String) (now : Int) : TrainEstimate :=
  let uptown_time := getNextArrival uptownTrips upStop now
  let downtown_time := getNextArrival downtownTrips downStop now
  let uptown_mins := match uptown_time with
    | none => none
    | some t => calculateMinutesAway (some t) now
  let downtown_mins := match downtown_time with
    | none => none
    | some t => calculateMinutesAway (some t) now
  { line := line, uptown := uptown_mins, downtown := downtown_mins }

/-! ## Spec-side definition for the proximity merge (claim C2)

The following definition is written from the specification's words — "walk
the filtered ascending sequence and drop any value whose absolute
difference from the last kept value is below 2" — to be compared with the
source-side fold over `mergeStep`. -/

/-- Modelled from the spec: the walk after the first value has been kept —
drop a value strictly within `2` of the last kept value, otherwise keep it
and continue from it. -/
def specMergeWalk (lastKept : Int) : List Int → List Int
  | [] => []
  | t :: ts =>
    if (t - lastKept).natAbs < 2 then specMergeWalk lastKept ts
    else t :: specMergeWalk t ts

/-- Modelled from the spec: the whole proximity-merge walk; the first value
is always kept. -/
def specMerge : List Int → List Int
  | [] => []
  | t :: ts => t :: specMergeWalk t ts

/-- A malformed raw record per the failure taxonomy of the spec: missing
trip id, unrecognizable direction, or both timestamps missing.  (A
non-numeric timestamp raises `TypeError` inside the `try` of
`_get_arrival_minutes` and is caught there, landing in the same skipped
outcome as a missing timestamp; the `Option Int` fields of the embedding
cover the present-numeric/unusable alternatives.) -/
def Malformed (item : RawItem) : Prop :=
  item.tripId = "" ∨ getDirection item = none ∨
    (item.predictedArrivalTime = none ∧ item.scheduledArrivalTime = none)

/-! ## Helper lemmas -/

/-- The proximity-merge fold agrees with the spec-side walk once a last
kept value exists. -/
theorem foldl_mergeStep_go (ts : List Int) :
    ∀ (acc : List Int) (last : Int), acc.getLast? = some last →
      ts.foldl mergeStep acc = acc ++ specMergeWalk last ts := by
  induction ts with
  | nil =>
    intro acc last _
    simp [specMergeWalk]
  | cons t ts ih =>
    intro acc last h
    simp only [List.foldl_cons, specMergeWalk]
    by_cases hc : 2 ≤ (t - last).natAbs
    · have hm : mergeStep acc t = acc ++ [t] := by
        simp [mergeStep, h, hc]
      rw [hm, ih (acc ++ [t]) t (List.getLast?_concat acc)]
      have hnc : ¬ (t - last).natAbs < 2 := by omega
      simp [hnc]
    · have hm : mergeStep acc t = acc := by
        simp [mergeStep, h, hc]
      rw [hm, ih acc last h]
      have hcc : (t - last).natAbs < 2 := by omega
      simp [hcc]

/-- The fold of `mergeStep` starting from the empty kept list is the
spec-side proximity merge. -/
theorem foldl_mergeStep_eq_specMerge (l : List Int) :
    l.foldl mergeStep [] = specMerge l := by
  cases l with
  | nil => rfl
  | cons t ts =>
    have h0 : mergeStep [] t = [t] := rfl
    simp only [List.foldl_cons, h0, specMerge]
    simpa using foldl_mergeStep_go ts [t] t rfl

/-- On a sorted tail whose members dominate the last kept value, the walk
produces a strictly sorted list whose members exceed the last kept value
by at least `2`. -/
theorem specMergeWalk_sorted (ts : List Int) :
    ∀ last : Int, ts.Sorted (· ≤ ·) → (∀ x ∈ ts, last ≤ x) →
      (specMergeWalk last ts).Sorted (· < ·) ∧
        ∀ u ∈ specMergeWalk last ts, last + 2 ≤ u := by
  induction ts with
  | nil =>
    intro last _ _
    exact ⟨List.sorted_nil, by simp [specMergeWalk]⟩
  | cons t ts ih =>
    intro last hsort hge
    rw [List.sorted_cons] at hsort
    obtain ⟨hts, hsort2⟩ := hsort
    by_cases hc : (t - last).natAbs < 2
    · simp only [specMergeWalk, if_pos hc]
      exact ih last hsort2 (fun x hx => hge x (List.mem_cons_of_mem t hx))
    · have hlt : last ≤ t := hge t (List.mem_cons_self t ts)
      have h2 : last + 2 ≤ t := by omega
      obtain ⟨ih1, ih2⟩ := ih t hsort2 hts
      simp only [specMergeWalk, if_neg hc]
      refine ⟨List.sorted_cons.mpr ⟨fun u hu => ?_, ih1⟩, fun u hu => ?_⟩
      · have := ih2 u hu
        omega
      · rcases List.mem_cons.mp hu with rfl | hu
        · exact h2
        · have := ih2 u hu
          omega

/-- The spec-side proximity merge of a sorted list is strictly sorted. -/
theorem specMerge_sorted (l : List Int) (h : l.Sorted (· ≤ ·)) :
    (specMerge l).Sorted (· < ·) := by
  cases l with
  | nil => exact List.sorted_nil
  | cons t ts =>
    rw [List.sorted_cons] at h
    obtain ⟨hts, hsort⟩ := h
    obtain ⟨h1, h2⟩ := specMergeWalk_sorted ts t hsort hts
    rw [specMerge, List.sorted_cons]
    exact ⟨fun u hu => by have := h2 u hu; omega, h1⟩

/-- After the clamp to `0`, Python truncation (`Int.tdiv`) and the spec's
floor (`Int.fdiv`) agree. -/
theorem maxZero_tdiv_eq_fdiv (d : Int) :
    max 0 (d.tdiv 60000) = max 0 (d.fdiv 60000) := by
  rcases le_or_lt 0 d with h | h
  · rw [Int.tdiv_eq_ediv h (by norm_num), Int.fdiv_eq_ediv d (by norm_num)]
  · have h1 : d.tdiv 60000 ≤ 0 := by
      have h2 : (0 : Int) ≤ (-d).tdiv 60000 := Int.tdiv_nonneg (by omega) (by norm_num)
      have h3 : (-d).tdiv 60000 = -(d.tdiv 60000) := Int.neg_tdiv d 60000
      omega
    have h4 : d.fdiv 60000 ≤ 0 := by
      rw [Int.fdiv_eq_ediv d (by norm_num)]
      omega
    rw [max_eq_left h1, max_eq_left h4]

/-- `updateAssoc` appends a fresh key at the end and leaves the key list
unchanged otherwise. -/
theorem updateAssoc_keys (m : List (String × TripRecord)) (k : String) (r : TripRecord) :
    (updateAssoc m k r).map Prod.fst =
      if k ∈ m.map Prod.fst then m.map Prod.fst else m.map Prod.fst ++ [k] := by
  induction m with
  | nil => simp [updateAssoc]
  | cons p rest ih =>
    obtain ⟨k2, old⟩ := p
    by_cases hk : k2 = k
    · subst hk
      simp only [updateAssoc, List.map_cons, eq_self_iff_true, if_true]
      rw [if_pos (List.mem_cons_self k2 (List.map Prod.fst rest))]
      congr 1
      split <;> rfl
    · simp only [updateAssoc, if_neg hk, List.map_cons, ih]
      have hne : ¬ k = k2 := fun h => hk h.symm
      by_cases hmem : k ∈ rest.map Prod.fst
      · simp [hmem, hne]
      · simp [hmem, hne]

/-- Updating with a key not yet present appends the pair at the end. -/
theorem updateAssoc_of_not_mem (m : List (String × TripRecord)) (k : String) (r : TripRecord)
    (h : k ∉ m.map Prod.fst) : updateAssoc m k r = m ++ [(k, r)] := by
  induction m with
  | nil => rfl
  | cons p rest ih =>
    obtain ⟨k2, old⟩ := p
    simp only [List.map_cons, List.mem_cons] at h
    push_neg at h
    have hk : ¬ k2 = k := fun hh => h.1 hh.symm
    simp [updateAssoc, hk, ih h.2]

/-- The deduplication fold keeps the key list duplicate-free. -/
theorem foldl_updateAssoc_keys_nodup (ps : List (String × TripRecord)) :
    ∀ m : List (String × TripRecord), (m.map Prod.fst).Nodup →
      ((ps.foldl (fun m p => updateAssoc m p.1 p.2) m).map Prod.fst).Nodup := by
  induction ps with
  | nil =>
    intro m h
    simpa using h
  | cons p ps ih =>
    intro m h
    simp only [List.foldl_cons]
    apply ih
    rw [updateAssoc_keys]
    by_cases hmem : p.1 ∈ m.map Prod.fst
    · rw [if_pos hmem]
      exact h
    · rw [if_neg hmem]
      simp [List.nodup_append, h, hmem]

/-- When every key of `ps` is fresh (no duplicates among `m` and `ps`
together), the deduplication fold is a plain append. -/
theorem foldl_updateAssoc_fresh (ps : List (String × TripRecord)) :
    ∀ m : List (String × TripRecord), ((m ++ ps).map Prod.fst).Nodup →
      ps.foldl (fun m p => updateAssoc m p.1 p.2) m = m ++ ps := by
  induction ps with
  | nil =>
    intro m _
    simp
  | cons p ps ih =>
    intro m h
    obtain ⟨k, r⟩ := p
    have hnotm : k ∉ m.map Prod.fst := by
      intro hmem
      rw [List.map_append] at h
      have hdisj := (List.nodup_append.mp h).2.2
      exact hdisj hmem (by simp)
    simp only [List.foldl_cons]
    rw [updateAssoc_of_not_mem m k r hnotm]
    have hre : ((m ++ [(k, r)]) ++ ps).map Prod.fst = (m ++ (k, r) :: ps).map Prod.fst := by
      simp
    rw [ih (m ++ [(k, r)]) (by rw [hre]; exact h)]
    simp

/-- One-step unfolding of the normalization loop. -/
theorem normalizeAll_cons (requested : List String) (nows : Nat → Int) (item : RawItem)
    (rest : List RawItem) (k : Nat) :
    normalizeAll requested nows (item :: rest) k =
      match checksBeforeTime requested item with
      | none => normalizeAll requested nows rest k
      | some dir =>
        match getArrivalMinutes item (nows k) with
        | none => normalizeAll requested nows rest k
        | some mins =>
          if item.tripId = "" then
            normalizeAll requested nows rest (k + 1)
          else
            (item.routeShortName ++ "_" ++ dirString dir ++ "_" ++ item.tripId,
              { route := item.routeShortName, direction := dir, minutes := mins,
                has_prediction := hasPredOf item.predictedArrivalTime })
              :: normalizeAll requested nows rest (k + 1) := rfl

/-- Under a constant clock, the normalization loop does not depend on the
sample counter. -/
theorem normalizeAll_constClock (requested : List String) (c : Int) (l : List RawItem) :
    ∀ k k2 : Nat,
      normalizeAll requested (fun _ => c) l k = normalizeAll requested (fun _ => c) l k2 := by
  induction l with
  | nil =>
    intro k k2
    rfl
  | cons item rest ih =>
    intro k k2
    simp only [normalizeAll_cons]
    cases hc : checksBeforeTime requested item with
    | none => exact ih k k2
    | some dir =>
      cases hm : getArrivalMinutes item c with
      | none => exact ih k k2
      | some mins =>
        by_cases ht : item.tripId = ""
        · simp only [if_pos ht]
          exact ih (k + 1) (k2 + 1)
        · simp only [if_neg ht]
          rw [ih (k + 1) (k2 + 1)]

/-- An unrecognizable direction fails the pre-checks. -/
theorem checksBeforeTime_of_dir_none (requested : List String) (item : RawItem)
    (h : getDirection item = none) : checksBeforeTime requested item = none := by
  unfold checksBeforeTime
  by_cases hr : item.routeShortName ∈ requested
  · simp [hr, h]
  · simp [hr]

/-- A record with both timestamps missing yields no arrival minutes, at any
clock instant. -/
theorem getArrivalMinutes_none_of_missing (item : RawItem) (now : Int)
    (hp : item.predictedArrivalTime = none) (hs : item.scheduledArrivalTime = none) :
    getArrivalMinutes item now = none := by
  simp [getArrivalMinutes, hp, hs]

/-- Under a constant clock, a malformed record anywhere in the feed is
skipped: the normalization loop yields the same records with or without
it. -/
theorem normalizeAll_skip_malformed (requested : List String) (c : Int) (b : RawItem)
    (hb : Malformed b) (l2 : List RawItem) :
    ∀ (l1 : List RawItem) (k : Nat),
      normalizeAll requested (fun _ => c) (l1 ++ b :: l2) k
        = normalizeAll requested (fun _ => c) (l1 ++ l2) k := by
  intro l1
  induction l1 with
  | nil =>
    intro k
    simp only [List.nil_append, normalizeAll_cons]
    cases hc : checksBeforeTime requested b with
    | none => rfl
    | some dir =>
      cases hm : getArrivalMinutes b c with
      | none => rfl
      | some mins =>
        have ht : b.tripId = "" := by
          rcases hb with h | h | h
          · exact h
          · rw [checksBeforeTime_of_dir_none requested b h] at hc
            exact absurd hc (by simp)
          · rw [getArrivalMinutes_none_of_missing b c h.1 h.2] at hm
            exact absurd hm (by simp)
        simp only [if_pos ht]
        exact normalizeAll_constClock requested c l2 (k + 1) k
  | cons a l1 ih =>
    intro k
    simp only [List.cons_append, normalizeAll_cons]
    cases hc : checksBeforeTime requested a with
    | none => exact ih k
    | some dir =>
      cases hm : getArrivalMinutes a c with
      | none => exact ih k
      | some mins =>
        by_cases ht : a.tripId = ""
        · simp only [if_pos ht]
          exact ih (k + 1)
        · simp only [if_neg ht]
          rw [ih (k + 1)]

/-- Both branches of the estimate loop put the requested line name into the
resulting estimate. -/
theorem estimateForLine_line (trips : List TripRecord) (line : String) :
    (estimateForLine trips line).line = line := by
  rw [estimateForLine]
  split <;> rfl

/-- On a sorted non-empty input, `filter_useful_times` returns a non-empty,
strictly sorted list of at most three values. -/
theorem filter_useful_times_sorted_spec (s : List Int) (hs : s.Sorted (· ≤ ·)) (hne : s ≠ []) :
    filter_useful_times s ≠ []
  ∧ 1 ≤ (filter_useful_times s).length
  ∧ (filter_useful_times s).length ≤ 3
  ∧ (filter_useful_times s).Sorted (· < ·) := by
  cases s with
  | nil => exact absurd rfl hne
  | cons first rest =>
    rw [filter_useful_times]
    by_cases hemp : ((first :: rest).filter fun t => 1 ≤ t).isEmpty
    · simp only [hemp, if_true]
      exact ⟨by simp, by simp, by simp, List.sorted_singleton first⟩
    · simp only [hemp, if_false]
      obtain ⟨u, us, huseful⟩ : ∃ u us, (first :: rest).filter (fun t => 1 ≤ t) = u :: us := by
        cases h : (first :: rest).filter (fun t => 1 ≤ t) with
        | nil => rw [h] at hemp; simp at hemp
        | cons u us => exact ⟨u, us, rfl⟩
      rw [huseful, foldl_mergeStep_eq_specMerge]
      have husort : (u :: us).Sorted (· ≤ ·) := by
        rw [← huseful]
        exact hs.filter _
      have hspec : (specMerge (u :: us)).Sorted (· < ·) := specMerge_sorted _ husort
      have hsm : specMerge (u :: us) = u :: specMergeWalk u us := rfl
      refine ⟨?_, ?_, ?_, ?_⟩
      · rw [hsm]
        simp [List.take_succ_cons]
      · rw [hsm]
        simp [List.take_succ_cons]
      · simp only [Bool.false_eq_true, if_false, List.length_take]
        omega
      · exact List.Pairwise.sublist (List.take_sublist 3 _) hspec

/-! ## Claim theorems -/

/-- C2 — Proximity merge: the fold over `mergeStep` inside
`filter_useful_times` walks the filtered ascending sequence and drops any
value whose absolute difference from the last kept value is strictly below
`2`, keeping it when that difference is at least `2` (the spec-side
definition `specMerge` says exactly this); concretely, input minutes
`[3, 4, 9, 10, 11]` yield `[3, 9, 11]` after the cap of `3`. -/
theorem c2_proximity_merge :
    (∀ l : List Int, l.foldl mergeStep [] = specMerge l)
  ∧ filter_useful_times [3, 4, 9, 10, 11] = [3, 9, 11] :=
  ⟨foldl_mergeStep_eq_specMerge, by decide⟩

/-- C3 — Imminent fallback: on a non-empty ascending minute list, if the
imminent filter (values strictly below `MIN_USEFUL_MINUTES = 1` removed,
i.e. the `t >= 1` filter of `filter_useful_times`) removes every value,
the selector returns the single smallest original value, not an empty
list. -/
theorem c3_imminent_fallback (l : List Int) (hne : l ≠ []) (hsorted : l.Sorted (· ≤ ·))
    (hfilter : (l.filter fun t => 1 ≤ t) = []) :
    ∃ m, filter_useful_times l = [m] ∧ m ∈ l ∧ ∀ x ∈ l, m ≤ x := by
  cases l with
  | nil => exact absurd rfl hne
  | cons first rest =>
    refine ⟨first, ?_, List.mem_cons_self first rest, ?_⟩
    · rw [filter_useful_times, hfilter]
      rfl
    · intro x hx
      rcases List.mem_cons.mp hx with rfl | hx
      · exact le_refl x
      · exact (List.sorted_cons.mp hsorted).1 x hx

/-- Witness for C3: input `[0]` — the filter removes everything, and the
fallback restores the one-element list `[0]`. -/
theorem c3_imminent_fallback_witness :
    ∃ m, filter_useful_times [(0 : Int)] = [m] ∧ m ∈ [(0 : Int)] ∧ ∀ x ∈ [(0 : Int)], m ≤ x :=
  c3_imminent_fallback [0] (by decide) (List.sorted_singleton 0) rfl

/-- C10 — Non-empty output whenever data exists: if a (line, direction)
group has at least one deduplicated record, the selector's output for that
direction (sort, then `filter_useful_times`) is non-empty, of length
between `1` and `3`, and strictly ascending; the empty output arises only
from the empty group. -/
theorem c10_nonempty_when_data (l : List Int) (hne : l ≠ []) :
    filter_useful_times (sortInt l) ≠ []
  ∧ 1 ≤ (filter_useful_times (sortInt l)).length
  ∧ (filter_useful_times (sortInt l)).length ≤ 3
  ∧ (filter_useful_times (sortInt l)).Sorted (· < ·)
  ∧ filter_useful_times (sortInt []) = [] := by
  have hs : (sortInt l).Sorted (· ≤ ·) := List.sorted_insertionSort (· ≤ ·) l
  have hlen : (sortInt l).length = l.length := (List.perm_insertionSort (· ≤ ·) l).length_eq
  have hsne : sortInt l ≠ [] := by
    intro h
    rw [h] at hlen
    exact hne (List.eq_nil_of_length_eq_zero hlen.symm)
  obtain ⟨h1, h2, h3, h4⟩ := filter_useful_times_sorted_spec (sortInt l) hs hsne
  exact ⟨h1, h2, h3, h4, rfl⟩

/-- Witness for C10: the singleton group `[0]` yields the non-empty output
`[0]`. -/
theorem c10_nonempty_when_data_witness :
    filter_useful_times (sortInt [0]) ≠ []
  ∧ 1 ≤ (filter_useful_times (sortInt [0])).length
  ∧ (filter_useful_times (sortInt [0])).length ≤ 3
  ∧ (filter_useful_times (sortInt [0])).Sorted (· < ·)
  ∧ filter_useful_times (sortInt []) = [] :=
  c10_nonempty_when_data [0] (by decide)

/-- C4, counterexample: a record whose scheduled arrival instant is
*present* but equal to `0` (epoch), with no usable prediction, is
discarded by the code (`if not arrival_ms` treats the zero instant as
absent, `_get_arrival_minutes`), although the claim says a record is
discarded only when *neither* instant is present — here it would have to
be kept with minutes `max 0 (floor((0 − now)/60000)) = 0`. -/
theorem c4_zero_instant_discarded :
    (⟨"F", "", "Uptown", "t1", none, some 0⟩ : RawItem).scheduledArrivalTime = some 0
  ∧ getArrivalMinutes ⟨"F", "", "Uptown", "t1", none, some 0⟩ 0 = none :=
  ⟨rfl, rfl⟩

/-- C4 as amended — Minutes computation: the predicted instant is used
when present and strictly positive, otherwise the scheduled instant; the
record is discarded when the selected instant is missing *or zero*
(Python's `if not arrival_ms` treats a zero epoch-millisecond instant as
absent — in particular when neither instant is present); the returned
value is `max 0 (floor((arrival − now) ms / 60000))` (clamped, so never
negative: `Int.fdiv` by `60000` of the millisecond difference is the
spec's `floor(seconds / 60)`, and after the clamp Python's `int()`
truncation agrees with it). -/
theorem c4_minutes_computation (item : RawItem) (now : Int) :
    (∀ p, item.predictedArrivalTime = some p → 0 < p →
        getArrivalMinutes item now = some (max 0 ((p - now).fdiv 60000)))
  ∧ (∀ s, item.scheduledArrivalTime = some s → s ≠ 0 →
        (∀ p, item.predictedArrivalTime = some p → p ≤ 0) →
        getArrivalMinutes item now = some (max 0 ((s - now).fdiv 60000)))
  ∧ (item.predictedArrivalTime = none → item.scheduledArrivalTime = none →
        getArrivalMinutes item now = none)
  ∧ ((∀ p, item.predictedArrivalTime = some p → p ≤ 0) →
        item.scheduledArrivalTime = some 0 →
        getArrivalMinutes item now = none)
  ∧ (∀ m, getArrivalMinutes item now = some m → 0 ≤ m) := by
  refine ⟨?_, ?_, ?_, ?_, ?_⟩
  · intro p hp hpos
    simp only [getArrivalMinutes, hp, if_pos hpos]
    rw [if_neg (by omega : ¬ p = 0), maxZero_tdiv_eq_fdiv]
  · intro s hs hs0 hple
    cases hp : item.predictedArrivalTime with
    | none =>
      simp only [getArrivalMinutes, hp, hs]
      rw [if_neg hs0, maxZero_tdiv_eq_fdiv]
    | some p =>
      have hnp : ¬ 0 < p := by
        have := hple p hp
        omega
      simp only [getArrivalMinutes, hp, if_neg hnp, hs]
      rw [if_neg hs0, maxZero_tdiv_eq_fdiv]
  · intro hp hs
    simp [getArrivalMinutes, hp, hs]
  · intro hple hs0
    cases hp : item.predictedArrivalTime with
    | none => simp [getArrivalMinutes, hp, hs0]
    | some p =>
      have hnp : ¬ 0 < p := by
        have := hple p hp
        omega
      simp [getArrivalMinutes, hp, if_neg hnp, hs0]
  · intro m hm
    simp only [getArrivalMinutes] at hm
    split at hm
    · exact absurd hm (by simp)
    · split at hm
      · exact absurd hm (by simp)
      · have h := Option.some.inj hm
        rw [← h]
        exact le_max_left 0 _

/-- Witness for C4 as amended: a predicted instant five minutes ahead of
`now = 0` yields `5`; a predicted instant in the past yields `0`, not a
negative value; a present-but-zero scheduled instant is discarded. -/
theorem c4_minutes_computation_witness :
    getArrivalMinutes ⟨"F", "", "Uptown", "t1", some 300000, none⟩ 0 = some 5
  ∧ getArrivalMinutes ⟨"F", "", "Uptown", "t1", some 100, none⟩ 600000 = some 0
  ∧ getArrivalMinutes ⟨"F", "", "Uptown", "t1", none, some 0⟩ 5 = none := by
  refine ⟨?_, ?_, ?_⟩
  · have h := (c4_minutes_computation ⟨"F", "", "Uptown", "t1", some 300000, none⟩ 0).1
      300000 rfl (by decide)
    rw [h]
    decide
  · have h := (c4_minutes_computation ⟨"F", "", "Uptown", "t1", some 100, none⟩ 600000).1
      100 rfl (by decide)
    rw [h]
    decide
  · exact (c4_minutes_computation ⟨"F", "", "Uptown", "t1", none, some 0⟩ 5).2.2.2.1
      (by intro p hp; exact absurd hp (by simp)) rfl

/-- C5 — Deduplicator idempotence and key uniqueness: the output of the
deduplication fold carries pairwise distinct keys (so at most one record
per distinct `line_direction_tripId` key string, hence at most one per
(line, direction, tripId) triple), and running the fold again over its own
output changes nothing. -/
theorem c5_dedup_idempotent (ps : List (String × TripRecord)) :
    ((dedupTrips ps).map Prod.fst).Nodup ∧ dedupTrips (dedupTrips ps) = dedupTrips ps := by
  have hnd : ((dedupTrips ps).map Prod.fst).Nodup :=
    foldl_updateAssoc_keys_nodup ps [] (by simp)
  refine ⟨hnd, ?_⟩
  have h := foldl_updateAssoc_fresh (dedupTrips ps) [] (by simpa using hnd)
  simpa [dedupTrips] using h

/-- C6 — Output ordering and completeness: the estimate list has exactly
one entry per requested line, position by position in the caller's order
(so a line requested twice yields two entries), and a line with no
surviving record still yields an entry with two empty lists. -/
theorem c6_output_order (trips : List TripRecord) (requested : List String) :
    (parseEstimates trips requested).length = requested.length
  ∧ (∀ i : Nat, ((parseEstimates trips requested)[i]?).map MTATrainEstimate.line = requested[i]?)
  ∧ (∀ (i : Nat) (line : String), requested[i]? = some line →
      (trips.filter fun r => r.route = line) = [] →
      (parseEstimates trips requested)[i]? = some ⟨line, [], []⟩) := by
  refine ⟨by simp [parseEstimates], ?_, ?_⟩
  · intro i
    rw [parseEstimates, List.getElem?_map]
    cases requested[i]? with
    | none => rfl
    | some line => simp [estimateForLine_line]
  · intro i line hi hfilter
    rw [parseEstimates, List.getElem?_map, hi]
    have he : estimateForLine trips line = ⟨line, [], []⟩ := by
      rw [estimateForLine, if_pos (by rw [hfilter]; rfl)]
      rfl
    simp [he]

/-- Witness for C6: requesting `["F", "F"]` against no records — the
second duplicate entry exists and is `⟨"F", [], []⟩`. -/
theorem c6_output_order_witness :
    (parseEstimates [] ["F", "F"])[1]? = some ⟨"F", [], []⟩ :=
  (c6_output_order [] ["F", "F"]).2.2 1 "F" rfl rfl

/-- C7, counterexample: in the `subway_times.py` variant the no-data value
of a direction is `None`, not an empty sequence — with no trips at all,
`TrainEstimate.uptown` is `none` (`TrainEstimate.__init__` stores the
`None` default unchanged), contradicting "an empty sequence, not
null/None". -/
theorem c7_counterexample :
    (subwayLineEstimate "F" [] [] "F20N" "F20S" 0).uptown = none := rfl

/-- C7 as amended: in the `mta_api.py` pipeline the claim holds — the
`MTATrainEstimate` constructor turns a missing (`None`) argument into `[]`,
and a (line, direction) pair with no surviving records always gets `[]`,
whether the line has records in the other direction or none at all. -/
theorem c7_empty_list_not_none (trips : List TripRecord) (line : String) :
    MTATrainEstimate.mkPy line none none = ⟨line, [], []⟩
  ∧ (lineMinutes trips line Direction.uptown = [] → (estimateForLine trips line).uptown = [])
  ∧ (lineMinutes trips line Direction.downtown = [] →
      (estimateForLine trips line).downtown = []) := by
  refine ⟨rfl, ?_, ?_⟩
  · intro h
    rw [estimateForLine]
    split
    · rfl
    · rw [h]
      rfl
  · intro h
    rw [estimateForLine]
    split
    · rfl
    · rw [h]
      rfl

/-- Witness for C7 as amended: a line with one downtown record and no
uptown record gets the empty list (not `None`) as its uptown estimate. -/
theorem c7_empty_list_not_none_witness :
    (estimateForLine [⟨"F", Direction.downtown, 5, HasPred.pyTrue⟩] "F").uptown = [] :=
  (c7_empty_list_not_none [⟨"F", Direction.downtown, 5, HasPred.pyTrue⟩] "F").2.1 rfl

/-- C8 — Graceful per-record degradation: the pipeline is a total function
of its inputs (it cannot raise), and under a constant clock a malformed
record — missing trip id, unrecognizable direction, or no timestamps —
anywhere in the feed leaves the output for the remaining records
unchanged. -/
theorem c8_graceful_skip (requested : List String) (now : Int) (b : RawItem)
    (hb : Malformed b) (l1 l2 : List RawItem) :
    parseResponse (l1 ++ b :: l2) requested (fun _ => now)
      = parseResponse (l1 ++ l2) requested (fun _ => now) := by
  unfold parseResponse
  rw [normalizeAll_skip_malformed requested now b hb l2 l1 0]

/-- Witness for C8: a record with an empty trip id between two good
records is skipped and the estimates are identical. -/
theorem c8_graceful_skip_witness :
    parseResponse
        [⟨"Q", "", "Northbound", "t1", some 300000, none⟩,
         ⟨"Q", "", "Southbound", "", some 240000, none⟩,
         ⟨"Q", "", "Southbound", "t2", some 480000, none⟩]
        ["Q"] (fun _ => 0)
      = parseResponse
        [⟨"Q", "", "Northbound", "t1", some 300000, none⟩,
         ⟨"Q", "", "Southbound", "t2", some 480000, none⟩]
        ["Q"] (fun _ => 0) :=
  c8_graceful_skip ["Q"] 0 ⟨"Q", "", "Southbound", "", some 240000, none⟩ (Or.inl rfl)
    [⟨"Q", "", "Northbound", "t1", some 300000, none⟩]
    [⟨"Q", "", "Southbound", "t2", some 480000, none⟩]

/-- C1, evaluation at the failing input: two records of the same trip
(`Q_uptown_t1`), neither with a usable prediction — the first with
`predictedArrivalTime` absent (Python `has_prediction = None`) and minutes
`5`, the second with `predictedArrivalTime = 0` (Python
`has_prediction = 0`) and minutes `3`.  Python's `None == 0` is `False`,
so the equal-`has_prediction` smaller-minutes rule never fires and the
survivor is the *larger* value `5`, although the claimed total order (and
the code's own comment) requires the smaller `3` to win. -/
theorem c1_dedup_precedence_violation :
    (normalizeAll ["Q"] (fun _ => 0)
        [⟨"Q", "", "Northbound", "t1", none, some 300000⟩,
         ⟨"Q", "", "Northbound", "t1", some 0, some 180000⟩] 0).map
        (fun p => (p.1, p.2.minutes, p.2.has_prediction.truthy))
      = [("Q_uptown_t1", 5, false), ("Q_uptown_t1", 3, false)]
  ∧ (dedupTrips (normalizeAll ["Q"] (fun _ => 0)
        [⟨"Q", "", "Northbound", "t1", none, some 300000⟩,
         ⟨"Q", "", "Northbound", "t1", some 0, some 180000⟩] 0)).map
        (fun p => p.2.minutes)
      = [5] :=
  ⟨by decide, by decide⟩

/-- C9, evaluation at the failing input: `datetime.now()` is read once per
successful `_get_arrival_minutes` call, not once per invocation.  Two
records with the *same* predicted arrival instant, processed while the
clock advances by `60000` ms between the two samples, get different
`minutesFromNow` values (`5` and `4`) within a single invocation. -/
theorem c9_clock_resampled :
    (⟨"Q", "", "Northbound", "t1", some 300000, none⟩ : RawItem).predictedArrivalTime
      = (⟨"Q", "", "Northbound", "t2", some 300000, none⟩ : RawItem).predictedArrivalTime
  ∧ (normalizeAll ["Q"] (fun k => 60000 * (k : Int))
        [⟨"Q", "", "Northbound", "t1", some 300000, none⟩,
         ⟨"Q", "", "Northbound", "t2", some 300000, none⟩] 0).map (fun p => p.2.minutes)
      = [5, 4] :=
  ⟨rfl, by decide⟩

end SubwaySign
